import Mathlib

/-!
Shallow embedding of the HCB script decoder/reassembler of src/fvp_tools.py
(the functions hcb_decode, hcb_rebuild and get_opcode_info).

Modelling conventions:
- bytes are Nat (values below 256), byte buffers are List Nat, Python text is
  List Char, and Python dicts keyed by address are association lists;
- the cp932 codec is an external library, not part of the repository: it is
  passed in as a parameter (dec : List Nat -> List Char for decoding with
  errors="replace", which never fails, and enc : List Char -> Option (List Nat)
  for strict encoding, where none models a raised UnicodeEncodeError);
- Python operations that can raise IndexError / struct.error are modelled with
  Option: a none result corresponds to hcb_rebuild dying with an exception and
  writing no output file;
- the decimal rendering of an IEEE-754 float (the pushfloat case of pass 2) is
  not modelled: the emitted line carries the raw 32 bits instead (no claim
  depends on that line's text);
- the while loops are modelled by structural recursion on an explicit fuel
  argument.  Every loop iteration advances the cursor pos by at least one byte
  and the loop stops as soon as pos reaches code_end, so fuel = code_end is
  always sufficient for the model to coincide with the unbounded loop.
-/

namespace FvpTools

/-- Little-endian 32-bit read, struct.unpack_from("<I", data, off).
Out-of-range bytes read as 0 (only used in-range by the callers). -/
def unpackLE4 (data : List Nat) (off : Nat) : Nat :=
  data.getD off 0 + 256 * data.getD (off + 1) 0 +
    65536 * data.getD (off + 2) 0 + 16777216 * data.getD (off + 3) 0

/-- Little-endian 32-bit write, struct.pack("<I", v). -/
def packLE4 (v : Nat) : List Nat :=
  [v % 256, v / 256 % 256, v / 65536 % 256, v / 16777216 % 256]

/-- Python slice prefix s[:i] with a possibly negative index i. -/
def pyTake (i : Int) (s : List Nat) : List Nat :=
  if i < 0 then s.take ((s.length : Int) + i).toNat else s.take i.toNat

/-- Python bytes.endswith(b"\x00"); false on the empty buffer. -/
def endsWithZero (s : List Nat) : Bool :=
  match s.getLast? with
  | some b => b == 0
  | none => false

/-- One uppercase hex digit. -/
def hexDigitU (d : Nat) : Char :=
  Char.ofNat (if d < 10 then 48 + d else 55 + d)

/-- One lowercase hex digit. -/
def hexDigitL (d : Nat) : Char :=
  Char.ofNat (if d < 10 then 48 + d else 87 + d)

/-- Python "%08X" of a value below 2^32. -/
def toHexU8 (n : Nat) : String :=
  String.mk ((List.range 8).map (fun i => hexDigitU (n / 16 ^ (7 - i) % 16)))

/-- Python "%08x" of a value below 2^32. -/
def toHexL8 (n : Nat) : String :=
  String.mk ((List.range 8).map (fun i => hexDigitL (n / 16 ^ (7 - i) % 16)))

/-- Python "%04d". -/
def pad4 (n : Nat) : String :=
  (if n < 10 then "000" else if n < 100 then "00" else if n < 1000 then "0" else "") ++ toString n

/-- Reinterpret an unsigned 32-bit value as signed (struct "<i"). -/
def decodeI32 (u : Nat) : Int :=
  if u < 2147483648 then (u : Int) else (u : Int) - 4294967296

/-- Reinterpret an unsigned 16-bit value as signed (struct "<h"). -/
def decodeI16 (u : Nat) : Int :=
  if u < 32768 then (u : Int) else (u : Int) - 65536

/-- Reinterpret an unsigned 8-bit value as signed (struct "<b"). -/
def decodeI8 (u : Nat) : Int :=
  if u < 128 then (u : Int) else (u : Int) - 256

/-- Python str.rstrip("\x00") on decoded text. -/
def rstrip0 (l : List Char) : List Char :=
  (l.reverse.dropWhile (fun c => c = Char.ofNat 0)).reverse

/-- Opcode argument type OPARG_NULL. -/
def OPARG_NULL : Nat := 0

/-- Opcode argument type OPARG_X32. -/
def OPARG_X32 : Nat := 1

/-- Opcode argument type OPARG_I32. -/
def OPARG_I32 : Nat := 2

/-- Opcode argument type OPARG_I16. -/
def OPARG_I16 : Nat := 3

/-- Opcode argument type OPARG_I8. -/
def OPARG_I8 : Nat := 4

/-- Opcode argument type OPARG_I8I8. -/
def OPARG_I8I8 : Nat := 5

/-- Opcode argument type OPARG_STRING. -/
def OPARG_STRING : Nat := 6

/-- The HCB opcode table: (opcode, name, arg_type), listed so that the entry
at index i has opcode i, exactly as in the source. -/
def HCB_OPCODES : List (Nat × String × Nat) :=
  [(0x00, "nop", OPARG_NULL),
   (0x01, "initstack", OPARG_I8I8),
   (0x02, "call", OPARG_X32),
   (0x03, "syscall", OPARG_I16),
   (0x04, "ret", OPARG_NULL),
   (0x05, "ret2", OPARG_NULL),
   (0x06, "jmp", OPARG_X32),
   (0x07, "jmpcond", OPARG_X32),
   (0x08, "pushtrue", OPARG_NULL),
   (0x09, "pushfalse", OPARG_NULL),
   (0x0A, "pushint", OPARG_I32),
   (0x0B, "pushint", OPARG_I16),
   (0x0C, "pushint", OPARG_I8),
   (0x0D, "pushfloat", OPARG_X32),
   (0x0E, "pushstring", OPARG_STRING),
   (0x0F, "pushglobal", OPARG_I16),
   (0x10, "pushstack", OPARG_I8),
   (0x11, "unk_11", OPARG_I16),
   (0x12, "unk_12", OPARG_I8),
   (0x13, "pushtop", OPARG_NULL),
   (0x14, "pushtemp", OPARG_NULL),
   (0x15, "popglobal", OPARG_I16),
   (0x16, "copystack", OPARG_I8),
   (0x17, "unk_17", OPARG_I16),
   (0x18, "unk_18", OPARG_I8),
   (0x19, "neg", OPARG_NULL),
   (0x1A, "add", OPARG_NULL),
   (0x1B, "sub", OPARG_NULL),
   (0x1C, "mul", OPARG_NULL),
   (0x1D, "div", OPARG_NULL),
   (0x1E, "mod", OPARG_NULL),
   (0x1F, "test", OPARG_NULL),
   (0x20, "logand", OPARG_NULL),
   (0x21, "logor", OPARG_NULL),
   (0x22, "eq", OPARG_NULL),
   (0x23, "neq", OPARG_NULL),
   (0x24, "gt", OPARG_NULL),
   (0x25, "le", OPARG_NULL),
   (0x26, "lt", OPARG_NULL),
   (0x27, "ge", OPARG_NULL)]

/-- The largest known opcode. -/
def HCB_LAST_OPCODE : Nat := 0x27

/-- HCB_OPCODES[opcode][1], the mnemonic of a known opcode. -/
def opName (op : Nat) : String :=
  ((HCB_OPCODES.getD op (0, "", 0)).2).1

/-- HCB_OPCODES[opcode][2], the argument type of a known opcode. -/
def opArg (op : Nat) : Nat :=
  ((HCB_OPCODES.getD op (0, "", 0)).2).2

/-- get_opcode_info: (name, arg_type) for a known opcode, none above
HCB_LAST_OPCODE (the source returns the pair (None, None)). -/
def get_opcode_info (op : Nat) : Option (String × Nat) :=
  if HCB_LAST_OPCODE < op then none else some (opName op, opArg op)

/-- The iteration core of Python str.replace(old, new): leftmost,
non-overlapping matches, and the replacement text is not rescanned.  The
fuel argument only drives the recursion; any fuel of at least the length of
the scanned text gives the untruncated behaviour (every step shortens the
scanned text by at least one character when the pattern is nonempty). -/
def pyReplaceGo (old new : List Char) : Nat → List Char → List Char
  | 0, s => s
  | fuel + 1, s =>
    if old.isEmpty then s
    else if old.isPrefixOf s then new ++ pyReplaceGo old new fuel (s.drop old.length)
    else
      match s with
      | [] => []
      | c :: t => c :: pyReplaceGo old new fuel t

/-- Python str.replace(old, new) on text modelled as List Char.
(The Python behaviour for an empty pattern is different but never used:
it is modelled as the identity.) -/
def pyReplace (old new s : List Char) : List Char :=
  pyReplaceGo old new s.length s

/-- The table escaping applied to a string before it is written to the
strings file (src/fvp_tools.py line 311):
text.replace("\\", "\\\\").replace("\n", "\\n").replace("\r", "\\r"). -/
def escapeForTable (s : List Char) : List Char :=
  pyReplace ['\r'] ['\\', 'r'] (pyReplace ['\n'] ['\\', 'n'] (pyReplace ['\\'] ['\\', '\\'] s))

/-- The table unescaping applied to a replacement string read back from the
strings file (src/fvp_tools.py line 353):
text.replace("\\n", "\n").replace("\\r", "\r").replace("\\\\", "\\"). -/
def unescapeFromTable (s : List Char) : List Char :=
  pyReplace ['\\', '\\'] ['\\'] (pyReplace ['\\', 'r'] ['\r'] (pyReplace ['\\', 'n'] ['\n'] s))

/-- The inline escaping used for pass-2 listing lines (src/fvp_tools.py
line 288); it additionally escapes the double quote. -/
def escapeForScript (s : List Char) : List Char :=
  pyReplace ['\r'] ['\\', 'r'] (pyReplace ['\n'] ['\\', 'n'] (pyReplace ['"'] ['\\', '"'] (pyReplace ['\\'] ['\\', '\\'] s)))

/-- Absence of escape collisions: no backslash immediately followed by the
character n or the character r anywhere in the text. -/
def noClash : List Char → Bool
  | [] => true
  | [_] => true
  | a :: b :: t => (!(a == '\\' && (b == 'n' || b == 'r'))) && noClash (b :: t)

/-- The deterministic label name f"label_(target):08x". -/
def labelName (a : Nat) : String :=
  "label_" ++ toHexL8 a

/-- Dictionary lookup in the functions map (addr -> function index). -/
def lookupFn (fs : List (Nat × Nat)) (pos : Nat) : Option Nat :=
  fs.lookup pos

/-- Placeholder rendering of a pushfloat operand: the decimal rendering of
the IEEE-754 value is not modelled, the raw 32 bits are shown instead. -/
def floatRepr (bits : Nat) : String :=
  "float32 0x" ++ toHexU8 bits

/-- Pass 1 of hcb_decode (src/fvp_tools.py lines 134-177): one recursive step
per loop iteration, collecting the functions dict (addr, index) and the labels
dict (represented by its list of addresses; label names are derived from the
address when emitted). -/
def pass1Go (data : List Nat) (ce : Nat) :
    Nat → Nat → List (Nat × Nat) → Nat → List Nat → List (Nat × Nat) × List Nat
  | 0, _, fs, _, ls => (fs, ls)
  | fuel + 1, pos, fs, fn, ls =>
    if pos < ce then
      if data.length ≤ pos then (fs, ls)
      else
        let op := data.getD pos 0
        if HCB_LAST_OPCODE < op then pass1Go data ce fuel (pos + 1) fs fn ls
        else
          let name := opName op
          let arg := opArg op
          let fs1 := if name = "initstack" then fs ++ [(pos, fn)] else fs
          let fn1 := if name = "initstack" then fn + 1 else fn
          let p := pos + 1
          if arg = OPARG_NULL then pass1Go data ce fuel p fs1 fn1 ls
          else if arg = OPARG_X32 then
            let ls1 :=
              if p + 4 ≤ data.length ∧ (name = "jmp" ∨ name = "jmpcond" ∨ name = "call") then
                let tgt := unpackLE4 data p
                if tgt < ce ∧ ls.contains tgt = false ∧ (fs1.map Prod.fst).contains tgt = false then
                  ls ++ [tgt]
                else ls
              else ls
            pass1Go data ce fuel (p + 4) fs1 fn1 ls1
          else if arg = OPARG_I32 then pass1Go data ce fuel (p + 4) fs1 fn1 ls
          else if arg = OPARG_I16 then pass1Go data ce fuel (p + 2) fs1 fn1 ls
          else if arg = OPARG_I8 then pass1Go data ce fuel (p + 1) fs1 fn1 ls
          else if arg = OPARG_I8I8 then pass1Go data ce fuel (p + 2) fs1 fn1 ls
          else if arg = OPARG_STRING then
            if p < data.length then pass1Go data ce fuel (p + 1 + data.getD p 0) fs1 fn1 ls
            else pass1Go data ce fuel (p + 1) fs1 fn1 ls
          else pass1Go data ce fuel p fs1 fn1 ls
    else (fs, ls)

/-- The function-boundary and label header lines emitted at the top of a
pass-2 iteration (src/fvp_tools.py lines 193-202), together with the updated
current_func value. -/
def pass2Headers (fs : List (Nat × Nat)) (ls : List Nat) (pos : Nat) (cf : Int)
    (acc : List String) : List String × Int :=
  let fpart : List String × Int :=
    match lookupFn fs pos with
    | some idx =>
      ((if 0 ≤ cf then acc ++ [""] else acc) ++
        ["# ===== FUNCTION " ++ toString idx ++ " ====="], (idx : Int))
    | none => (acc, cf)
  (if ls.contains pos then fpart.1 ++ [labelName pos ++ ":"] else fpart.1, fpart.2)

/-- Pass 2 of hcb_decode (src/fvp_tools.py lines 183-291): emits the text
lines and the string records (id, instruction address, text).  A return
without a recursive call models the break on a truncated argument. -/
def pass2Go (dec : List Nat → List Char) (data : List Nat) (ce : Nat)
    (fs : List (Nat × Nat)) (ls : List Nat) :
    Nat → Nat → Int → Nat → List String → List (Nat × Nat × List Char) →
      List String × List (Nat × Nat × List Char)
  | 0, _, _, _, acc, strs => (acc, strs)
  | fuel + 1, pos, cf, sid, acc, strs =>
    if pos < ce then
      if data.length ≤ pos then (acc, strs)
      else
        let hd := pass2Headers fs ls pos cf acc
        let acc2 := hd.1
        let cf1 := hd.2
        let op := data.getD pos 0
        if HCB_LAST_OPCODE < op then pass2Go dec data ce fs ls fuel (pos + 1) cf1 sid acc2 strs
        else
          let name := opName op
          let arg := opArg op
          let p := pos + 1
          if arg = OPARG_NULL then
            pass2Go dec data ce fs ls fuel p cf1 sid (acc2 ++ ["  " ++ name]) strs
          else if arg = OPARG_X32 then
            if data.length < p + 4 then (acc2, strs)
            else
              let val := unpackLE4 data p
              let line :=
                if name = "jmp" ∨ name = "jmpcond" then
                  if ls.contains val then "  " ++ name ++ " " ++ labelName val
                  else
                    match lookupFn fs val with
                    | some i => "  " ++ name ++ " FUNCTION_" ++ toString i
                    | none => "  " ++ name ++ " 0x" ++ toHexU8 val
                else if name = "call" then
                  match lookupFn fs val with
                  | some i => "  " ++ name ++ " FUNCTION_" ++ toString i
                  | none => "  " ++ name ++ " 0x" ++ toHexU8 val
                else if name = "pushfloat" then "  " ++ name ++ " " ++ floatRepr val
                else "  " ++ name ++ " 0x" ++ toHexU8 val
              pass2Go dec data ce fs ls fuel (p + 4) cf1 sid (acc2 ++ [line]) strs
          else if arg = OPARG_I32 then
            if data.length < p + 4 then (acc2, strs)
            else
              pass2Go dec data ce fs ls fuel (p + 4) cf1 sid
                (acc2 ++ ["  " ++ name ++ " " ++ toString (decodeI32 (unpackLE4 data p))]) strs
          else if arg = OPARG_I16 then
            if data.length < p + 2 then (acc2, strs)
            else
              pass2Go dec data ce fs ls fuel (p + 2) cf1 sid
                (acc2 ++ ["  " ++ name ++ " " ++
                  toString (decodeI16 (data.getD p 0 + 256 * data.getD (p + 1) 0))]) strs
          else if arg = OPARG_I8 then
            if data.length ≤ p then (acc2, strs)
            else
              pass2Go dec data ce fs ls fuel (p + 1) cf1 sid
                (acc2 ++ ["  " ++ name ++ " " ++ toString (decodeI8 (data.getD p 0))]) strs
          else if arg = OPARG_I8I8 then
            if data.length < p + 2 then (acc2, strs)
            else
              pass2Go dec data ce fs ls fuel (p + 2) cf1 sid
                (acc2 ++ ["  " ++ name ++ " " ++ toString (decodeI8 (data.getD p 0)) ++ ", " ++
                  toString (decodeI8 (data.getD (p + 1) 0))]) strs
          else if arg = OPARG_STRING then
            if data.length ≤ p then (acc2, strs)
            else
              let strLen := data.getD p 0
              let p2 := p + 1
              if data.length < p2 + strLen then (acc2, strs)
              else
                let s := rstrip0 (dec ((data.drop p2).take strLen))
                let line := "  " ++ name ++ " \"" ++ String.mk (escapeForScript s) ++
                  "\"  ; [STR_" ++ pad4 sid ++ "]"
                pass2Go dec data ce fs ls fuel (p2 + strLen) cf1 (sid + 1)
                  (acc2 ++ [line]) (strs ++ [(sid, pos, s)])
          else pass2Go dec data ce fs ls fuel p cf1 sid acc2 strs
    else (acc, strs)

/-- hcb_decode (src/fvp_tools.py lines 102-315) seen as a function from the
raw file bytes to the produced listing lines and the string records.  none
models the ValueError raised for a file smaller than 4 bytes: nothing is
written.  On success the listing is the pass-2 lines followed by a blank line
and the entry-point trailer line. -/
def hcbDecode (dec : List Nat → List Char) (data : List Nat) :
    Option (List String × List (Nat × Nat × List Char)) :=
  if data.length < 4 then none
  else
    some ((pass2Go dec data (unpackLE4 data 0)
        (pass1Go data (unpackLE4 data 0) (unpackLE4 data 0) 4 [] 0 []).1
        (pass1Go data (unpackLE4 data 0) (unpackLE4 data 0) 4 [] 0 []).2
        (unpackLE4 data 0) 4 (-1) 0 [] []).1 ++
        ["", "# ENTRY_POINT: 0x" ++ toHexU8 (unpackLE4 data 0)],
      (pass2Go dec data (unpackLE4 data 0)
        (pass1Go data (unpackLE4 data 0) (unpackLE4 data 0) 4 [] 0 []).1
        (pass1Go data (unpackLE4 data 0) (unpackLE4 data 0) 4 [] 0 []).2
        (unpackLE4 data 0) 4 (-1) 0 [] []).2)

/-- Dictionary lookup in the ReplacementMap (addr -> replacement text). -/
def lookupRepl (repl : List (Nat × List Char)) (addr : Nat) : Option (List Char) :=
  repl.lookup addr

/-- The "Ensure null terminator" step of hcb_rebuild (lines 444-446): append
a NUL byte unless the buffer already ends with one. -/
def withNul (ns0 : List Nat) : List Nat :=
  if endsWithZero ns0 then ns0 else ns0 ++ [0]

/-- The string-operand rewrite of hcb_rebuild (src/fvp_tools.py lines
436-456): er is the result of the strict cp932 encoding of the replacement
text (none = UnicodeEncodeError, falling back to the original operand bytes
old, which is what er.getD old selects), then a NUL terminator is appended
if absent and the result is padded with spaces (byte 32) immediately before
the terminator, or truncated (Python new_str[:old_str_len - 1], whose index
may be -1) keeping the final NUL, to the original operand byte count. -/
def fixString (er : Option (List Nat)) (old : List Nat) (strLen : Nat) : List Nat :=
  if (withNul (er.getD old)).length < strLen then
    (withNul (er.getD old)).dropLast ++
      List.replicate (strLen - (withNul (er.getD old)).length) 32 ++ [0]
  else if strLen < (withNul (er.getD old)).length then
    pyTake ((strLen : Int) - 1) (withNul (er.getD old)) ++ [0]
  else withNul (er.getD old)

/-- The code-section rewrite loop of hcb_rebuild (src/fvp_tools.py lines
390-461).  The second list accumulates the addresses for which the
string-encoding-failure warning is printed (the except branch at line 439).
A none result models an IndexError from reading past the end of data (which
would abort hcb_rebuild before any output is written). -/
def rebuildGo (enc : List Char → Option (List Nat)) (data : List Nat) (ce : Nat)
    (repl : List (Nat × List Char)) :
    Nat → Nat → List Nat → List Nat → Option (List Nat × List Nat)
  | 0, _, out, warns => some (out, warns)
  | fuel + 1, pos, out, warns =>
    if pos < ce then
      if data.length ≤ pos then none
      else
        let op := data.getD pos 0
        if HCB_LAST_OPCODE < op then rebuildGo enc data ce repl fuel (pos + 1) (out ++ [op]) warns
        else
          let arg := opArg op
          let p := pos + 1
          let out1 := out ++ [op]
          if arg = OPARG_NULL then rebuildGo enc data ce repl fuel p out1 warns
          else if arg = OPARG_X32 then
            rebuildGo enc data ce repl fuel (p + 4) (out1 ++ (data.drop p).take 4) warns
          else if arg = OPARG_I32 then
            rebuildGo enc data ce repl fuel (p + 4) (out1 ++ (data.drop p).take 4) warns
          else if arg = OPARG_I16 then
            rebuildGo enc data ce repl fuel (p + 2) (out1 ++ (data.drop p).take 2) warns
          else if arg = OPARG_I8 then
            if data.length ≤ p then none
            else rebuildGo enc data ce repl fuel (p + 1) (out1 ++ [data.getD p 0]) warns
          else if arg = OPARG_I8I8 then
            rebuildGo enc data ce repl fuel (p + 2) (out1 ++ (data.drop p).take 2) warns
          else if arg = OPARG_STRING then
            if data.length ≤ p then none
            else
              let strLen := data.getD p 0
              let old := (data.drop (p + 1)).take strLen
              match lookupRepl repl pos with
              | some t =>
                let er := enc t
                let ns := fixString er old strLen
                let warns1 := match er with | none => warns ++ [pos] | some _ => warns
                rebuildGo enc data ce repl fuel (p + 1 + strLen) (out1 ++ [ns.length] ++ ns) warns1
              | none =>
                rebuildGo enc data ce repl fuel (p + 1 + strLen) (out1 ++ [old.length] ++ old) warns
          else rebuildGo enc data ce repl fuel p out1 warns
    else some (out, warns)

/-- hcb_rebuild (src/fvp_tools.py lines 322-479) seen as a function from the
original file bytes and the ReplacementMap to the output file bytes plus the
list of string-encoding warning addresses.  An empty map short-circuits to a
verbatim copy of the input (lines 375-381); otherwise the output is the
packed entry point, the rewritten code section and the unchanged data
section.  none models an uncaught exception (no output written). -/
def hcbRebuild (enc : List Char → Option (List Nat)) (data : List Nat)
    (repl : List (Nat × List Char)) : Option (List Nat × List Nat) :=
  if repl.isEmpty then some (data, [])
  else if data.length < 4 then none
  else
    match rebuildGo enc data (unpackLE4 data 0) repl (unpackLE4 data 0) 4 [] [] with
    | some r =>
      some (packLE4 (unpackLE4 data 0) ++ r.1 ++ data.drop (unpackLE4 data 0), r.2)
    | none => none

/-- Well-formedness of the rebuild traversal from a given position: every
instruction argument lies entirely inside the code section, and every string
operand whose instruction address is in the ReplacementMap has a nonzero
declared length.  Mirrors the traversal of rebuildGo step by step. -/
def wfGo (data : List Nat) (ce : Nat) (repl : List (Nat × List Char)) :
    Nat → Nat → Bool
  | 0, _ => true
  | fuel + 1, pos =>
    if pos < ce then
      let op := data.getD pos 0
      if HCB_LAST_OPCODE < op then wfGo data ce repl fuel (pos + 1)
      else
        let arg := opArg op
        let p := pos + 1
        if arg = OPARG_NULL then wfGo data ce repl fuel p
        else if arg = OPARG_X32 then decide (p + 4 ≤ ce) && wfGo data ce repl fuel (p + 4)
        else if arg = OPARG_I32 then decide (p + 4 ≤ ce) && wfGo data ce repl fuel (p + 4)
        else if arg = OPARG_I16 then decide (p + 2 ≤ ce) && wfGo data ce repl fuel (p + 2)
        else if arg = OPARG_I8 then decide (p + 1 ≤ ce) && wfGo data ce repl fuel (p + 1)
        else if arg = OPARG_I8I8 then decide (p + 2 ≤ ce) && wfGo data ce repl fuel (p + 2)
        else if arg = OPARG_STRING then
          let strLen := data.getD p 0
          (decide (p + 1 + strLen ≤ ce) &&
            (match lookupRepl repl pos with
             | some _ => decide (1 ≤ strLen)
             | none => true)) &&
            wfGo data ce repl fuel (p + 1 + strLen)
        else wfGo data ce repl fuel p
    else true

/-- Well-formedness of a bytecode file for the rebuild length-invariance
statement: all values are bytes, the entry point is at least the header size
and at most the file length, and the code-section traversal is well formed. -/
def rebuildWF (data : List Nat) (repl : List (Nat × List Char)) : Bool :=
  let ep := unpackLE4 data 0
  data.all (fun b => decide (b < 256)) && decide (4 ≤ ep) &&
    decide (ep ≤ data.length) && wfGo data ep repl ep 4

/-- The byte widths of the fixed-width argument shapes (none for OPARG_NULL,
which consumes nothing, and for OPARG_STRING, whose width is data dependent). -/
def fixedWidth (arg : Nat) : Option Nat :=
  if arg = OPARG_X32 then some 4
  else if arg = OPARG_I32 then some 4
  else if arg = OPARG_I16 then some 2
  else if arg = OPARG_I8 then some 1
  else if arg = OPARG_I8I8 then some 2
  else none

theorem isPrefixOf_length : ∀ (a b : List Char), a.isPrefixOf b = true → a.length ≤ b.length := by
  intro a
  induction a with
  | nil => intro b _; exact Nat.zero_le _
  | cons x xs ih =>
    intro b h
    cases b with
    | nil => simp [List.isPrefixOf] at h
    | cons y ys =>
      simp only [List.isPrefixOf, Bool.and_eq_true] at h
      have := ih ys h.2
      simp only [List.length_cons]
      omega

theorem pyReplaceGo_fuel (old new : List Char) (hne : old.isEmpty = false) :
    ∀ f1 : Nat, ∀ f2 : Nat, ∀ s : List Char, s.length ≤ f1 → s.length ≤ f2 →
      pyReplaceGo old new f1 s = pyReplaceGo old new f2 s := by
  have hone : 1 ≤ old.length := by
    cases old with
    | nil => simp [List.isEmpty] at hne
    | cons _ _ => simp
  intro f1
  induction f1 with
  | zero =>
    intro f2 s h1 _
    have hs : s = [] := List.eq_nil_of_length_eq_zero (Nat.le_zero.mp h1)
    subst hs
    cases f2 with
    | zero => rfl
    | succ f2 =>
      simp only [pyReplaceGo, hne]
      cases hq : old.isPrefixOf ([] : List Char) with
      | false => simp
      | true =>
        have hl : old.length ≤ 0 := by simpa using isPrefixOf_length old [] hq
        exact absurd hone (by omega)
  | succ f1 ih =>
    intro f2 s h1 h2
    cases f2 with
    | zero =>
      have hs : s = [] := List.eq_nil_of_length_eq_zero (Nat.le_zero.mp h2)
      subst hs
      simp only [pyReplaceGo, hne]
      cases hq : old.isPrefixOf ([] : List Char) with
      | false => simp
      | true =>
        have hl : old.length ≤ 0 := by simpa using isPrefixOf_length old [] hq
        exact absurd hone (by omega)
    | succ f2 =>
      simp only [pyReplaceGo, hne]
      cases hq : old.isPrefixOf s with
      | true =>
        simp only [if_true]
        have hpl := isPrefixOf_length old s hq
        have hlen : (s.drop old.length).length ≤ f1 := by
          simp only [List.length_drop]
          omega
        have hlen2 : (s.drop old.length).length ≤ f2 := by
          simp only [List.length_drop]
          omega
        rw [ih f2 _ hlen hlen2]
      | false =>
        simp only [if_false, Bool.false_eq_true]
        cases s with
        | nil => rfl
        | cons c t =>
          have ht1 : t.length ≤ f1 := by simp at h1; omega
          have ht2 : t.length ≤ f2 := by simp at h2; omega
          simp only [List.cons.injEq, true_and]
          exact ih f2 t ht1 ht2

theorem pyReplace_nil (old new : List Char) : pyReplace old new [] = [] := by
  rfl

theorem pyReplace_pos (old new s : List Char) (h1 : old.isEmpty = false)
    (h2 : old.isPrefixOf s = true) :
    pyReplace old new s = new ++ pyReplace old new (s.drop old.length) := by
  have hone : 1 ≤ old.length := by
    cases old with
    | nil => simp [List.isEmpty] at h1
    | cons _ _ => simp
  cases s with
  | nil =>
    cases old with
    | nil => simp [List.isEmpty] at h1
    | cons x xs => simp [List.isPrefixOf] at h2
  | cons c t =>
    show pyReplaceGo old new (t.length + 1) (c :: t) = _
    simp [pyReplaceGo, h1, h2]
    exact pyReplaceGo_fuel old new h1 t.length (((c :: t).drop old.length).length)
      ((c :: t).drop old.length)
      (by simp only [List.length_drop, List.length_cons]; omega) (le_refl _)

theorem pyReplace_cons_neg (old new : List Char) (c : Char) (t : List Char)
    (h1 : old.isEmpty = false) (h2 : old.isPrefixOf (c :: t) = false) :
    pyReplace old new (c :: t) = c :: pyReplace old new t := by
  show pyReplaceGo old new (t.length + 1) (c :: t) = _
  simp only [pyReplaceGo, h1, h2]
  rfl

theorem pyReplace_one_eq (a : Char) (new : List Char) (t : List Char) :
    pyReplace [a] new (a :: t) = new ++ pyReplace [a] new t := by
  have := pyReplace_pos [a] new (a :: t) (by simp) (by simp [List.isPrefixOf])
  simpa using this

theorem pyReplace_one_ne (a : Char) (new : List Char) (c : Char) (t : List Char)
    (h : ¬ c = a) : pyReplace [a] new (c :: t) = c :: pyReplace [a] new t := by
  refine pyReplace_cons_neg [a] new c t (by simp) ?_
  simp [List.isPrefixOf]
  intro hh
  exact absurd hh.symm h

theorem pyReplace_two_eq (a b : Char) (new : List Char) (t : List Char) :
    pyReplace [a, b] new (a :: b :: t) = new ++ pyReplace [a, b] new t := by
  have := pyReplace_pos [a, b] new (a :: b :: t) (by simp) (by simp [List.isPrefixOf])
  simpa using this

theorem pyReplace_two_skip (a b : Char) (new : List Char) (c : Char) (X : List Char)
    (h : ¬ (c = a ∧ X.head? = some b)) :
    pyReplace [a, b] new (c :: X) = c :: pyReplace [a, b] new X := by
  refine pyReplace_cons_neg [a, b] new c X (by simp) ?_
  cases X with
  | nil => simp [List.isPrefixOf]
  | cons d t =>
    have hcd : ¬ (c = a ∧ d = b) := by simpa using h
    show ([a, b].isPrefixOf (c :: d :: t)) = false
    simp only [List.isPrefixOf, Bool.and_true, Bool.and_eq_false_iff, beq_eq_false_iff_ne, ne_eq]
    by_cases hca : c = a
    · right
      intro hbd
      exact hcd ⟨hca, hbd.symm⟩
    · left
      intro hac
      exact hca hac.symm

theorem escF_nil : escapeForTable [] = [] := by
  simp [escapeForTable, pyReplace_nil]

theorem escF_bs (t : List Char) :
    escapeForTable ('\\' :: t) = '\\' :: '\\' :: escapeForTable t := by
  unfold escapeForTable
  rw [pyReplace_one_eq]
  show pyReplace ['\r'] _ (pyReplace ['\n'] _ ('\\' :: '\\' :: pyReplace ['\\'] _ t)) = _
  rw [pyReplace_one_ne '\n' _ '\\' _ (by decide), pyReplace_one_ne '\n' _ '\\' _ (by decide),
    pyReplace_one_ne '\r' _ '\\' _ (by decide), pyReplace_one_ne '\r' _ '\\' _ (by decide)]

theorem escF_lf (t : List Char) :
    escapeForTable ('\n' :: t) = '\\' :: 'n' :: escapeForTable t := by
  unfold escapeForTable
  rw [pyReplace_one_ne '\\' _ '\n' _ (by decide), pyReplace_one_eq]
  show pyReplace ['\r'] _ ('\\' :: 'n' :: pyReplace ['\n'] _ (pyReplace ['\\'] _ t)) = _
  rw [pyReplace_one_ne '\r' _ '\\' _ (by decide), pyReplace_one_ne '\r' _ 'n' _ (by decide)]

theorem escF_cr (t : List Char) :
    escapeForTable ('\r' :: t) = '\\' :: 'r' :: escapeForTable t := by
  unfold escapeForTable
  rw [pyReplace_one_ne '\\' _ '\r' _ (by decide), pyReplace_one_ne '\n' _ '\r' _ (by decide),
    pyReplace_one_eq]
  rfl

theorem escF_other (c : Char) (t : List Char) (h1 : ¬ c = '\\') (h2 : ¬ c = '\n')
    (h3 : ¬ c = '\r') : escapeForTable (c :: t) = c :: escapeForTable t := by
  unfold escapeForTable
  rw [pyReplace_one_ne '\\' _ c _ h1, pyReplace_one_ne '\n' _ c _ h2,
    pyReplace_one_ne '\r' _ c _ h3]

theorem escF_head (s : List Char) (c : Char)
    (h : (escapeForTable s).head? = some c) : c = '\\' ∨ s.head? = some c := by
  cases s with
  | nil => rw [escF_nil] at h; simp at h
  | cons a t =>
    by_cases ha : a = '\\'
    · subst ha
      rw [escF_bs] at h
      simp at h
      left
      exact h.symm
    · by_cases hb : a = '\n'
      · subst hb
        rw [escF_lf] at h
        simp at h
        left
        exact h.symm
      · by_cases hc : a = '\r'
        · subst hc
          rw [escF_cr] at h
          simp at h
          left
          exact h.symm
        · rw [escF_other a t ha hb hc] at h
          simp at h
          right
          simp [h]

theorem replace_bsn_head (X : List Char) (c : Char)
    (h : (pyReplace ['\\', 'n'] ['\n'] X).head? = some c) : c = '\n' ∨ X.head? = some c := by
  cases X with
  | nil => rw [pyReplace_nil] at h; simp at h
  | cons x xs =>
    by_cases hp : (['\\', 'n'].isPrefixOf (x :: xs)) = true
    · rw [pyReplace_pos _ _ _ (by decide) hp] at h
      simp at h
      left
      exact h.symm
    · rw [pyReplace_cons_neg _ _ _ _ (by decide) (Bool.not_eq_true _ ▸ hp)] at h
      simp at h
      right
      simp [h]

theorem noClash_tail (a : Char) (t : List Char) (h : noClash (a :: t) = true) :
    noClash t = true := by
  cases t with
  | nil => rfl
  | cons b u =>
    simp only [noClash, Bool.and_eq_true] at h
    exact h.2

theorem noClash_head_bs (t : List Char) (h : noClash ('\\' :: t) = true) :
    t.head? ≠ some 'n' ∧ t.head? ≠ some 'r' := by
  cases t with
  | nil => simp
  | cons b u =>
    simp only [noClash, Bool.and_eq_true, Bool.not_eq_eq_eq_not, Bool.not_true,
      Bool.and_eq_false_iff, Bool.or_eq_false_iff] at h
    have h1 := h.1
    simp only [List.head?]
    rcases h1 with hbs | ⟨hn, hr⟩
    · simp at hbs
    · constructor
      · intro hh
        simp at hh
        rw [hh] at hn
        simp at hn
      · intro hh
        simp at hh
        rw [hh] at hr
        simp at hr

theorem unescape_escape_of_noClash (s : List Char) (h : noClash s = true) :
    unescapeFromTable (escapeForTable s) = s := by
  induction s with
  | nil =>
    rw [escF_nil]
    simp [unescapeFromTable, pyReplace_nil]
  | cons a t ih =>
    have ht := noClash_tail a t h
    have iht := ih ht
    by_cases ha : a = '\\'
    · subst ha
      have hbs := noClash_head_bs t h
      have hhn : ¬ (escapeForTable t).head? = some 'n' := by
        intro hc
        rcases escF_head t 'n' hc with h1 | h1
        · exact absurd h1 (by decide)
        · exact hbs.1 h1
      have hhr : ¬ (escapeForTable t).head? = some 'r' := by
        intro hc
        rcases escF_head t 'r' hc with h1 | h1
        · exact absurd h1 (by decide)
        · exact hbs.2 h1
      have hr1r : ¬ (pyReplace ['\\', 'n'] ['\n'] (escapeForTable t)).head? = some 'r' := by
        intro hc
        rcases replace_bsn_head (escapeForTable t) 'r' hc with h1 | h1
        · exact absurd h1 (by decide)
        · exact hhr h1
      rw [escF_bs]
      unfold unescapeFromTable
      rw [pyReplace_two_skip '\\' 'n' _ '\\' ('\\' :: escapeForTable t) (by simp),
        pyReplace_two_skip '\\' 'n' _ '\\' (escapeForTable t) (by simpa using hhn),
        pyReplace_two_skip '\\' 'r' _ '\\'
          ('\\' :: pyReplace ['\\', 'n'] ['\n'] (escapeForTable t)) (by simp),
        pyReplace_two_skip '\\' 'r' _ '\\' (pyReplace ['\\', 'n'] ['\n'] (escapeForTable t))
          (by simpa using hr1r),
        pyReplace_two_eq '\\' '\\' _ _]
      show '\\' :: unescapeFromTable (escapeForTable t) = _
      rw [iht]
    · by_cases hb : a = '\n'
      · subst hb
        rw [escF_lf]
        unfold unescapeFromTable
        rw [pyReplace_two_eq '\\' 'n' _ _]
        show pyReplace ['\\', '\\'] _ (pyReplace ['\\', 'r'] _
          ('\n' :: pyReplace ['\\', 'n'] ['\n'] (escapeForTable t))) = _
        rw [pyReplace_two_skip '\\' 'r' _ '\n' _ (by simp),
          pyReplace_two_skip '\\' '\\' _ '\n' _ (by simp)]
        show '\n' :: unescapeFromTable (escapeForTable t) = _
        rw [iht]
      · by_cases hc : a = '\r'
        · subst hc
          rw [escF_cr]
          unfold unescapeFromTable
          rw [pyReplace_two_skip '\\' 'n' _ '\\' ('r' :: escapeForTable t) (by simp),
            pyReplace_two_skip '\\' 'n' _ 'r' (escapeForTable t) (by simp),
            pyReplace_two_eq '\\' 'r' _ _]
          show pyReplace ['\\', '\\'] _
            ('\r' :: pyReplace ['\\', 'r'] ['\r'] (pyReplace ['\\', 'n'] ['\n'] (escapeForTable t))) = _
          rw [pyReplace_two_skip '\\' '\\' _ '\r' _ (by simp)]
          show '\r' :: unescapeFromTable (escapeForTable t) = _
          rw [iht]
        · rw [escF_other a t ha hb hc]
          unfold unescapeFromTable
          rw [pyReplace_two_skip '\\' 'n' _ a _ (by simp [ha]),
            pyReplace_two_skip '\\' 'r' _ a _ (by simp [ha]),
            pyReplace_two_skip '\\' '\\' _ a _ (by simp [ha])]
          show a :: unescapeFromTable (escapeForTable t) = _
          rw [iht]

theorem endsWithZero_concat (x : List Nat) : endsWithZero (x ++ [0]) = true := by
  unfold endsWithZero
  rw [show x ++ [0] = x ++ 0 :: [] from rfl, List.getLast?_append_cons]
  rfl

theorem withNul_length_pos (ns0 : List Nat) : 1 ≤ (withNul ns0).length := by
  unfold withNul
  split
  · next hz =>
    cases ns0 with
    | nil => simp [endsWithZero] at hz
    | cons b t => simp
  · simp

theorem withNul_endsZero (ns0 : List Nat) : endsWithZero (withNul ns0) = true := by
  unfold withNul
  split
  · next hz => exact hz
  · exact endsWithZero_concat ns0

theorem fixString_length (er : Option (List Nat)) (old : List Nat) (strLen : Nat)
    (hL : 1 ≤ strLen) : (fixString er old strLen).length = strLen := by
  unfold fixString
  have hpos := withNul_length_pos (er.getD old)
  by_cases hlt : (withNul (er.getD old)).length < strLen
  · rw [if_pos hlt]
    simp only [List.length_append, List.length_dropLast, List.length_replicate,
      List.length_cons, List.length_nil]
    omega
  · rw [if_neg hlt]
    by_cases hgt : strLen < (withNul (er.getD old)).length
    · rw [if_pos hgt]
      have : ¬ ((strLen : Int) - 1 < 0) := by omega
      simp only [pyTake, this, if_false, List.length_append, List.length_take,
        List.length_cons, List.length_nil]
      omega
    · rw [if_neg hgt]
      omega

theorem fixString_endsZero (er : Option (List Nat)) (old : List Nat) (strLen : Nat) :
    endsWithZero (fixString er old strLen) = true := by
  unfold fixString
  by_cases hlt : (withNul (er.getD old)).length < strLen
  · rw [if_pos hlt]
    exact endsWithZero_concat _
  · rw [if_neg hlt]
    by_cases hgt : strLen < (withNul (er.getD old)).length
    · rw [if_pos hgt]
      exact endsWithZero_concat _
    · rw [if_neg hgt]
      exact withNul_endsZero _

theorem fixString_none_id (old : List Nat) (strLen : Nat)
    (h0 : endsWithZero old = true) (hlen : old.length = strLen) :
    fixString none old strLen = old := by
  unfold fixString
  have hwn : withNul (old) = old := by unfold withNul; rw [if_pos h0]
  simp only [Option.getD, hwn, hlen]
  rw [if_neg (by omega), if_neg (by omega)]

theorem rebuildGo_wf (enc : List Char → Option (List Nat)) (data : List Nat) (ce : Nat)
    (repl : List (Nat × List Char)) (hce : ce ≤ data.length) :
    ∀ fuel : Nat, ∀ pos : Nat, ∀ out warns : List Nat,
      ce - pos ≤ fuel → wfGo data ce repl fuel pos = true →
      ∃ res : List Nat × List Nat,
        rebuildGo enc data ce repl fuel pos out warns = some res ∧
        res.1.length = out.length + (ce - pos) := by
  intro fuel
  induction fuel with
  | zero =>
    intro pos out warns h1 _
    refine ⟨(out, warns), rfl, ?_⟩
    show out.length = out.length + (ce - pos)
    omega
  | succ fuel ih =>
    intro pos out warns h1 hwf
    by_cases hlt : pos < ce
    case neg =>
      refine ⟨(out, warns), ?_, ?_⟩
      · simp only [rebuildGo]
        rw [if_neg hlt]
      · show out.length = out.length + (ce - pos)
        omega
    case pos =>
      have hpos : pos < data.length := lt_of_lt_of_le hlt hce
      simp only [wfGo] at hwf
      rw [if_pos hlt] at hwf
      simp only [rebuildGo]
      rw [if_pos hlt, if_neg (by omega : ¬ data.length ≤ pos)]
      by_cases hop : HCB_LAST_OPCODE < data.getD pos 0
      · rw [if_pos hop] at hwf ⊢
        obtain ⟨res, hr, hl⟩ := ih (pos + 1) (out ++ [data.getD pos 0]) warns (by omega) hwf
        refine ⟨res, hr, ?_⟩
        simp only [List.length_append, List.length_cons, List.length_nil] at hl
        omega
      · rw [if_neg hop] at hwf ⊢
        by_cases h0 : opArg (data.getD pos 0) = OPARG_NULL
        · rw [if_pos h0] at hwf ⊢
          obtain ⟨res, hr, hl⟩ := ih (pos + 1) (out ++ [data.getD pos 0]) warns (by omega) hwf
          refine ⟨res, hr, ?_⟩
          simp only [List.length_append, List.length_cons, List.length_nil] at hl
          omega
        · rw [if_neg h0] at hwf ⊢
          by_cases hx : opArg (data.getD pos 0) = OPARG_X32
          · rw [if_pos hx] at hwf ⊢
            rw [Bool.and_eq_true] at hwf
            have hb : pos + 1 + 4 ≤ ce := of_decide_eq_true hwf.1
            obtain ⟨res, hr, hl⟩ := ih (pos + 1 + 4)
              (out ++ [data.getD pos 0] ++ (data.drop (pos + 1)).take 4) warns (by omega) hwf.2
            refine ⟨res, hr, ?_⟩
            simp only [List.length_append, List.length_cons, List.length_nil,
              List.length_take, List.length_drop] at hl
            omega
          · rw [if_neg hx] at hwf ⊢
            by_cases hi32 : opArg (data.getD pos 0) = OPARG_I32
            · rw [if_pos hi32] at hwf ⊢
              rw [Bool.and_eq_true] at hwf
              have hb : pos + 1 + 4 ≤ ce := of_decide_eq_true hwf.1
              obtain ⟨res, hr, hl⟩ := ih (pos + 1 + 4)
                (out ++ [data.getD pos 0] ++ (data.drop (pos + 1)).take 4) warns (by omega) hwf.2
              refine ⟨res, hr, ?_⟩
              simp only [List.length_append, List.length_cons, List.length_nil,
                List.length_take, List.length_drop] at hl
              omega
            · rw [if_neg hi32] at hwf ⊢
              by_cases hi16 : opArg (data.getD pos 0) = OPARG_I16
              · rw [if_pos hi16] at hwf ⊢
                rw [Bool.and_eq_true] at hwf
                have hb : pos + 1 + 2 ≤ ce := of_decide_eq_true hwf.1
                obtain ⟨res, hr, hl⟩ := ih (pos + 1 + 2)
                  (out ++ [data.getD pos 0] ++ (data.drop (pos + 1)).take 2) warns (by omega) hwf.2
                refine ⟨res, hr, ?_⟩
                simp only [List.length_append, List.length_cons, List.length_nil,
                  List.length_take, List.length_drop] at hl
                omega
              · rw [if_neg hi16] at hwf ⊢
                by_cases hi8 : opArg (data.getD pos 0) = OPARG_I8
                · rw [if_pos hi8] at hwf ⊢
                  rw [Bool.and_eq_true] at hwf
                  have hb : pos + 1 + 1 ≤ ce := of_decide_eq_true hwf.1
                  rw [if_neg (by omega : ¬ data.length ≤ pos + 1)]
                  obtain ⟨res, hr, hl⟩ := ih (pos + 1 + 1)
                    (out ++ [data.getD pos 0] ++ [data.getD (pos + 1) 0]) warns (by omega) hwf.2
                  refine ⟨res, hr, ?_⟩
                  simp only [List.length_append, List.length_cons, List.length_nil] at hl
                  omega
                · rw [if_neg hi8] at hwf ⊢
                  by_cases hi88 : opArg (data.getD pos 0) = OPARG_I8I8
                  · rw [if_pos hi88] at hwf ⊢
                    rw [Bool.and_eq_true] at hwf
                    have hb : pos + 1 + 2 ≤ ce := of_decide_eq_true hwf.1
                    obtain ⟨res, hr, hl⟩ := ih (pos + 1 + 2)
                      (out ++ [data.getD pos 0] ++ (data.drop (pos + 1)).take 2) warns
                      (by omega) hwf.2
                    refine ⟨res, hr, ?_⟩
                    simp only [List.length_append, List.length_cons, List.length_nil,
                      List.length_take, List.length_drop] at hl
                    omega
                  · rw [if_neg hi88] at hwf ⊢
                    by_cases hstr : opArg (data.getD pos 0) = OPARG_STRING
                    · rw [if_pos hstr] at hwf ⊢
                      rw [Bool.and_eq_true, Bool.and_eq_true] at hwf
                      have hb : pos + 1 + 1 + data.getD (pos + 1) 0 ≤ ce :=
                        of_decide_eq_true hwf.1.1
                      rw [if_neg (by omega : ¬ data.length ≤ pos + 1)]
                      cases hrep : lookupRepl repl pos with
                      | some t =>
                        rw [hrep] at hwf
                        have hL : 1 ≤ data.getD (pos + 1) 0 := of_decide_eq_true hwf.1.2
                        obtain ⟨res, hr, hl⟩ := ih (pos + 1 + 1 + data.getD (pos + 1) 0)
                          (out ++ [data.getD pos 0] ++
                            [(fixString (enc t) ((data.drop (pos + 1 + 1)).take
                              (data.getD (pos + 1) 0)) (data.getD (pos + 1) 0)).length] ++
                            fixString (enc t) ((data.drop (pos + 1 + 1)).take
                              (data.getD (pos + 1) 0)) (data.getD (pos + 1) 0))
                          (match enc t with | none => warns ++ [pos] | some _ => warns)
                          (by omega) hwf.2
                        refine ⟨res, hr, ?_⟩
                        simp only [List.length_append, List.length_cons, List.length_nil] at hl
                        rw [fixString_length _ _ _ hL] at hl
                        omega
                      | none =>
                        rw [hrep] at hwf
                        have hlo : ((data.drop (pos + 1 + 1)).take
                            (data.getD (pos + 1) 0)).length = data.getD (pos + 1) 0 := by
                          simp only [List.length_take, List.length_drop]
                          omega
                        obtain ⟨res, hr, hl⟩ := ih (pos + 1 + 1 + data.getD (pos + 1) 0)
                          (out ++ [data.getD pos 0] ++
                            [((data.drop (pos + 1 + 1)).take (data.getD (pos + 1) 0)).length] ++
                            (data.drop (pos + 1 + 1)).take (data.getD (pos + 1) 0)) warns
                          (by omega) hwf.2
                        refine ⟨res, hr, ?_⟩
                        simp only [List.length_append, List.length_cons, List.length_nil,
                          hlo] at hl
                        omega
                    · rw [if_neg hstr] at hwf ⊢
                      obtain ⟨res, hr, hl⟩ := ih (pos + 1) (out ++ [data.getD pos 0]) warns
                        (by omega) hwf
                      refine ⟨res, hr, ?_⟩
                      simp only [List.length_append, List.length_cons, List.length_nil] at hl
                      omega

theorem getD_lt_256 (data : List Nat) (hb : data.all (fun b => decide (b < 256)) = true)
    (i : Nat) (hi : i < data.length) : data.getD i 0 < 256 := by
  rw [List.all_eq_true] at hb
  have hmem : data.getD i 0 ∈ data := by
    rw [List.getD_eq_getElem data 0 hi]
    exact List.getElem_mem hi
  simpa using hb _ hmem

theorem unpack_pack (v : Nat) (rest : List Nat) :
    unpackLE4 (packLE4 v ++ rest) 0 = v % 4294967296 := by
  simp only [unpackLE4, packLE4, List.cons_append, List.nil_append, List.getD_cons_zero,
    List.getD_cons_succ]
  omega

theorem pass1Go_labels_lt (data : List Nat) (ce : Nat) :
    ∀ fuel pos fs fn ls, (∀ a ∈ ls, a < ce) →
      ∀ a ∈ (pass1Go data ce fuel pos fs fn ls).2, a < ce := by
  intro fuel
  induction fuel with
  | zero => intro pos fs fn ls hls a ha; exact hls a ha
  | succ fuel ih =>
    intro pos fs fn ls hls a ha
    simp only [pass1Go] at ha
    by_cases hlt : pos < ce
    case neg =>
      rw [if_neg hlt] at ha
      exact hls a ha
    case pos =>
      rw [if_pos hlt] at ha
      by_cases hlen : data.length ≤ pos
      · rw [if_pos hlen] at ha
        exact hls a ha
      · rw [if_neg hlen] at ha
        by_cases hop : HCB_LAST_OPCODE < data.getD pos 0
        · rw [if_pos hop] at ha
          exact ih (pos + 1) fs fn ls hls a ha
        · rw [if_neg hop] at ha
          by_cases h0 : opArg (data.getD pos 0) = OPARG_NULL
          · rw [if_pos h0] at ha
            exact ih _ _ _ _ hls a ha
          · rw [if_neg h0] at ha
            by_cases hx : opArg (data.getD pos 0) = OPARG_X32
            · rw [if_pos hx] at ha
              generalize hFS : (if opName (data.getD pos 0) = "initstack" then
                fs ++ [(pos, fn)] else fs) = FS at ha
              generalize hFN : (if opName (data.getD pos 0) = "initstack" then
                fn + 1 else fn) = FN at ha
              refine ih _ _ _ _ ?_ a ha
              intro b hb
              by_cases hc1 : pos + 1 + 4 ≤ data.length ∧
                  (opName (data.getD pos 0) = "jmp" ∨ opName (data.getD pos 0) = "jmpcond" ∨
                    opName (data.getD pos 0) = "call")
              · rw [if_pos hc1] at hb
                by_cases hc2 : unpackLE4 data (pos + 1) < ce ∧
                    ls.contains (unpackLE4 data (pos + 1)) = false ∧
                    (FS.map Prod.fst).contains (unpackLE4 data (pos + 1)) = false
                · rw [if_pos hc2] at hb
                  rcases List.mem_append.mp hb with hb2 | hb2
                  · exact hls b hb2
                  · rw [List.mem_singleton] at hb2
                    subst hb2
                    exact hc2.1
                · rw [if_neg hc2] at hb
                  exact hls b hb
              · rw [if_neg hc1] at hb
                exact hls b hb
            · rw [if_neg hx] at ha
              by_cases hi32 : opArg (data.getD pos 0) = OPARG_I32
              · rw [if_pos hi32] at ha
                exact ih _ _ _ _ hls a ha
              · rw [if_neg hi32] at ha
                by_cases hi16 : opArg (data.getD pos 0) = OPARG_I16
                · rw [if_pos hi16] at ha
                  exact ih _ _ _ _ hls a ha
                · rw [if_neg hi16] at ha
                  by_cases hi8 : opArg (data.getD pos 0) = OPARG_I8
                  · rw [if_pos hi8] at ha
                    exact ih _ _ _ _ hls a ha
                  · rw [if_neg hi8] at ha
                    by_cases hi88 : opArg (data.getD pos 0) = OPARG_I8I8
                    · rw [if_pos hi88] at ha
                      exact ih _ _ _ _ hls a ha
                    · rw [if_neg hi88] at ha
                      by_cases hstr : opArg (data.getD pos 0) = OPARG_STRING
                      · rw [if_pos hstr] at ha
                        by_cases hp : pos + 1 < data.length
                        · rw [if_pos hp] at ha
                          exact ih _ _ _ _ hls a ha
                        · rw [if_neg hp] at ha
                          exact ih _ _ _ _ hls a ha
                      · rw [if_neg hstr] at ha
                        exact ih _ _ _ _ hls a ha

/-- Claim C3: for every input bytecode file, reassembling with an empty
ReplacementMap produces output byte-identical to the input (hcb_rebuild with
an empty replacement dict copies the original file verbatim). -/
theorem C3_empty_replacement_identity (enc : List Char → Option (List Nat))
    (data : List Nat) : hcbRebuild enc data [] = some (data, []) := by
  rfl

/-- Claim C6 (amended): hcb_decode fails fatally, writing no output, exactly
when the file is smaller than the 4-byte header; a stored entry point at or
below 4 does NOT abort — the code section is just empty and the output
(trailer line only) is still written. -/
theorem C6_decode_fatal_iff (dec : List Nat → List Char) (data : List Nat) :
    hcbDecode dec data = none ↔ data.length < 4 := by
  by_cases h : data.length < 4
  · simp [hcbDecode, h]
  · simp [hcbDecode, h]

/-- Counterexample to claim C6 as stated: the 4-byte file with entry point 0
has a zero-size code segment, yet hcb_decode does not fail — it writes an
output consisting of the blank line and the entry-point trailer. -/
theorem C6_counterexample :
    hcbDecode (fun bs => bs.map (fun b => Char.ofNat b)) [0, 0, 0, 0] =
      some (["", "# ENTRY_POINT: 0x00000000"], []) := by
  decide

/-- Claim C2 (amended): unescapeFromTable inverts escapeForTable exactly on
every text in which no backslash is immediately followed by the character n
or the character r; for texts containing such a pair the inversion fails
(see the counterexample). -/
theorem C2_table_roundtrip (s : List Char) (h : noClash s = true) :
    unescapeFromTable (escapeForTable s) = s :=
  unescape_escape_of_noClash s h

/-- Counterexample to claim C2 as stated: the two-character text backslash
followed by n escapes to backslash backslash n, which the unescape chain
(which replaces backslash n first) turns into backslash newline, not the
original text. -/
theorem C2_counterexample :
    unescapeFromTable (escapeForTable ['\\', 'n']) ≠ ['\\', 'n'] := by
  decide

/-- Witness for C2_table_roundtrip at a concrete clash-free text containing
a backslash, a newline and a carriage return. -/
theorem C2_witness :
    noClash ['a', '\\', 'b', '\n', '\r'] = true ∧
      unescapeFromTable (escapeForTable ['a', '\\', 'b', '\n', '\r']) =
        ['a', '\\', 'b', '\n', '\r'] :=
  ⟨by decide, C2_table_roundtrip ['a', '\\', 'b', '\n', '\r'] (by decide)⟩

/-- Claim C4 (amended): for a LengthPrefixedString operand whose original
byte count is at least 1 and whose replacement encodes strictly to bs, the
rewritten operand is the NUL-terminated encoding sized to exactly the
original byte count: space fill bytes are inserted before the terminator if
shorter, content is truncated keeping the final NUL if longer.  For an
original byte count of 0 the rewritten operand is not size preserving (see
the counterexample). -/
theorem C4_replacement_size (bs old : List Nat) (strLen : Nat) (hL : 1 ≤ strLen) :
    (fixString (some bs) old strLen).length = strLen ∧
    endsWithZero (fixString (some bs) old strLen) = true ∧
    ((withNul bs).length < strLen →
      fixString (some bs) old strLen =
        (withNul bs).dropLast ++ List.replicate (strLen - (withNul bs).length) 32 ++ [0]) ∧
    (strLen < (withNul bs).length →
      fixString (some bs) old strLen = (withNul bs).take (strLen - 1) ++ [0]) := by
  refine ⟨fixString_length _ _ _ hL, fixString_endsZero _ _ _, ?_, ?_⟩
  · intro h
    unfold fixString
    simp only [Option.getD_some]
    rw [if_pos h]
  · intro h
    unfold fixString
    simp only [Option.getD_some]
    rw [if_neg (by omega), if_pos h]
    have ht : pyTake ((strLen : Int) - 1) (withNul bs) = (withNul bs).take (strLen - 1) := by
      unfold pyTake
      rw [if_neg (by omega)]
      congr 1
      omega
    rw [ht]

/-- Counterexample to claim C4 as stated: replacing a string operand whose
declared byte count is 0 (length byte 0) with a successfully encoded text
produces a nonempty operand, so the written operand does not keep the
original byte count. -/
theorem C4_counterexample : (fixString (some [120, 121]) [] 0).length ≠ 0 := by
  decide

/-- Witness for C4_replacement_size: replacing a 4-byte operand with the
2-byte encoding of "xy" yields "xy", one fill byte, then NUL. -/
theorem C4_witness :
    1 ≤ 4 ∧ (fixString (some [120, 121]) [] 4).length = 4 ∧
      fixString (some [120, 121]) [] 4 = [120, 121, 32, 0] :=
  ⟨by decide, (C4_replacement_size [120, 121] [] 4 (by decide)).1, by decide⟩

/-- Claim C1 (amended): for every bytecode file and ReplacementMap that are
well formed for the rebuild traversal (all values are bytes, the entry point
lies between 4 and the file length, every instruction argument lies entirely
inside the code section, and every replaced string operand has a nonzero
declared length), hcb_rebuild succeeds, the output has exactly the byte
length of the input, and the 32-bit little-endian entry point at offset 0 is
unchanged.  Without those conditions the length can change (see the
counterexample, where the entry point is 0). -/
theorem C1_rebuild_length_entry (enc : List Char → Option (List Nat)) (data : List Nat)
    (repl : List (Nat × List Char)) (hwf : rebuildWF data repl = true) :
    ∃ out warns, hcbRebuild enc data repl = some (out, warns) ∧
      out.length = data.length ∧ unpackLE4 out 0 = unpackLE4 data 0 := by
  simp only [rebuildWF, Bool.and_eq_true, decide_eq_true_eq] at hwf
  obtain ⟨⟨⟨hbytes, hep4⟩, heplen⟩, hwfgo⟩ := hwf
  by_cases hempty : repl.isEmpty
  · refine ⟨data, [], ?_, rfl, rfl⟩
    unfold hcbRebuild
    rw [if_pos hempty]
  · unfold hcbRebuild
    rw [if_neg hempty, if_neg (by omega : ¬ data.length < 4)]
    obtain ⟨res, hr, hl⟩ := rebuildGo_wf enc data (unpackLE4 data 0) repl heplen
      (unpackLE4 data 0) 4 [] [] (by omega) hwfgo
    rw [hr]
    refine ⟨_, _, rfl, ?_, ?_⟩
    · simp only [List.length_nil] at hl
      simp only [List.length_append, List.length_drop, packLE4, List.length_cons,
        List.length_nil]
      omega
    · have hb0 := getD_lt_256 data hbytes 0 (by omega)
      have hb1 := getD_lt_256 data hbytes 1 (by omega)
      have hb2 := getD_lt_256 data hbytes 2 (by omega)
      have hb3 := getD_lt_256 data hbytes 3 (by omega)
      have heplt : unpackLE4 data 0 < 4294967296 := by
        unfold unpackLE4
        simp only [Nat.zero_add]
        omega
      rw [List.append_assoc, unpack_pack]
      exact Nat.mod_eq_of_lt heplt

/-- Counterexample to claim C1 as stated: a 4-byte file whose stored entry
point is 0 together with a nonempty ReplacementMap makes hcb_rebuild emit
the packed entry point followed by data[0:], duplicating the header: the
output has 8 bytes, not 4. -/
theorem C1_counterexample :
    (hcbRebuild (fun _ => some [120]) [0, 0, 0, 0] [(0, ['x'])]).map
        (fun r => r.1.length) ≠ some ([0, 0, 0, 0] : List Nat).length := by
  decide

/-- Witness for C1_rebuild_length_entry on a 5-byte file with entry point 5
(one nop in the code section) and a nonempty ReplacementMap. -/
theorem C1_witness :
    rebuildWF [5, 0, 0, 0, 0] [(99, ['x'])] = true ∧
      ∃ out warns,
        hcbRebuild (fun _ => some [120]) [5, 0, 0, 0, 0] [(99, ['x'])] = some (out, warns) ∧
          out.length = ([5, 0, 0, 0, 0] : List Nat).length ∧
          unpackLE4 out 0 = unpackLE4 [5, 0, 0, 0, 0] 0 :=
  ⟨by decide,
    C1_rebuild_length_entry (fun _ => some [120]) [5, 0, 0, 0, 0] [(99, ['x'])] (by decide)⟩

/-- Claim C5 (amended): during Pass 1, at a call/jmp/jmpcond instruction
whose 4 target bytes are in the file, a new Label is allocated at the
decoded little-endian target exactly when the target lies below entryPoint
(the range starting at 0, not at 4) and is not already a recorded Function
or Label address; consequently no Label address ever reaches entryPoint,
but Labels below address 4 are possible (see the counterexample). -/
theorem C5_pass1_labels (data : List Nat) (ce : Nat) :
    (∀ fuel pos fs fn ls, (∀ a ∈ ls, a < ce) →
        ∀ a ∈ (pass1Go data ce fuel pos fs fn ls).2, a < ce) ∧
    (∀ fuel pos fs fn ls, pos < ce → pos + 1 + 4 ≤ data.length →
        (data.getD pos 0 = 2 ∨ data.getD pos 0 = 6 ∨ data.getD pos 0 = 7) →
        pass1Go data ce (fuel + 1) pos fs fn ls =
          pass1Go data ce fuel (pos + 1 + 4) fs fn
            (if unpackLE4 data (pos + 1) < ce ∧
                ls.contains (unpackLE4 data (pos + 1)) = false ∧
                (fs.map Prod.fst).contains (unpackLE4 data (pos + 1)) = false then
              ls ++ [unpackLE4 data (pos + 1)]
            else ls)) := by
  constructor
  · exact pass1Go_labels_lt data ce
  · intro fuel pos fs fn ls hlt hlen hop
    have hle : ¬ data.length ≤ pos := by omega
    rcases hop with h | h | h
    · simp only [pass1Go]
      rw [if_pos hlt, if_neg hle, h]
      rw [if_neg (by decide : ¬ HCB_LAST_OPCODE < 2)]
      rw [show opName 2 = "call" from by decide, show opArg 2 = OPARG_X32 from by decide]
      rw [if_neg (by decide : ¬ ("call" : String) = "initstack"),
        if_neg (by decide : ¬ ("call" : String) = "initstack"),
        if_neg (by decide : ¬ OPARG_X32 = OPARG_NULL),
        if_pos (rfl : OPARG_X32 = OPARG_X32)]
      rw [if_pos (show pos + 1 + 4 ≤ data.length ∧
        ("call" = "jmp" ∨ "call" = "jmpcond" ∨ "call" = "call") from ⟨hlen, by decide⟩)]
    · simp only [pass1Go]
      rw [if_pos hlt, if_neg hle, h]
      rw [if_neg (by decide : ¬ HCB_LAST_OPCODE < 6)]
      rw [show opName 6 = "jmp" from by decide, show opArg 6 = OPARG_X32 from by decide]
      rw [if_neg (by decide : ¬ ("jmp" : String) = "initstack"),
        if_neg (by decide : ¬ ("jmp" : String) = "initstack"),
        if_neg (by decide : ¬ OPARG_X32 = OPARG_NULL),
        if_pos (rfl : OPARG_X32 = OPARG_X32)]
      rw [if_pos (show pos + 1 + 4 ≤ data.length ∧
        ("jmp" = "jmp" ∨ "jmp" = "jmpcond" ∨ "jmp" = "call") from ⟨hlen, by decide⟩)]
    · simp only [pass1Go]
      rw [if_pos hlt, if_neg hle, h]
      rw [if_neg (by decide : ¬ HCB_LAST_OPCODE < 7)]
      rw [show opName 7 = "jmpcond" from by decide, show opArg 7 = OPARG_X32 from by decide]
      rw [if_neg (by decide : ¬ ("jmpcond" : String) = "initstack"),
        if_neg (by decide : ¬ ("jmpcond" : String) = "initstack"),
        if_neg (by decide : ¬ OPARG_X32 = OPARG_NULL),
        if_pos (rfl : OPARG_X32 = OPARG_X32)]
      rw [if_pos (show pos + 1 + 4 ≤ data.length ∧
        ("jmpcond" = "jmp" ∨ "jmpcond" = "jmpcond" ∨ "jmpcond" = "call") from
          ⟨hlen, by decide⟩)]

/-- Counterexample to claim C5 as stated: a jmp whose target is address 0
(below the code-section start 4) still gets a Label in Pass 1, because the
source only checks target < code_end, never target >= 4. -/
theorem C5_counterexample :
    (pass1Go [10, 0, 0, 0, 6, 0, 0, 0, 0, 0] 10 10 4 [] 0 []).2.contains 0 = true := by
  decide

/-- Witness for C5_pass1_labels on the file with one jmp to address 0:
every collected label is below the entry point 10, and the first Pass 1
step on the jmp allocates exactly the label 0. -/
theorem C5_witness :
    (∀ a ∈ (pass1Go [10, 0, 0, 0, 6, 0, 0, 0, 0, 0] 10 10 4 [] 0 []).2, a < 10) ∧
      pass1Go [10, 0, 0, 0, 6, 0, 0, 0, 0, 0] 10 1 4 [] 0 [] =
        pass1Go [10, 0, 0, 0, 6, 0, 0, 0, 0, 0] 10 0 9 [] 0 [0] :=
  ⟨(C5_pass1_labels [10, 0, 0, 0, 6, 0, 0, 0, 0, 0] 10).1 10 4 [] 0 [] (by simp), by decide⟩

/-- Claim C7 (amended): at a LengthPrefixedString instruction whose address
is in the ReplacementMap and whose replacement fails to encode, the warning
records the instruction address and the original operand bytes are written
unchanged, provided the original operand is fully present and
NUL-terminated; otherwise the fallback bytes are still pushed through the
NUL-append and size enforcement and can change (see the counterexample). -/
theorem C7_encoding_failure (enc : List Char → Option (List Nat)) (data : List Nat)
    (ce : Nat) (repl : List (Nat × List Char)) (fuel pos : Nat) (out warns : List Nat)
    (t : List Char) (hlt : pos < ce) (hpos : pos < data.length)
    (hp1 : pos + 1 < data.length)
    (hop : ¬ HCB_LAST_OPCODE < data.getD pos 0)
    (hstr : opArg (data.getD pos 0) = OPARG_STRING)
    (hrep : lookupRepl repl pos = some t) (henc : enc t = none)
    (h0 : endsWithZero ((data.drop (pos + 1 + 1)).take (data.getD (pos + 1) 0)) = true)
    (hfull : ((data.drop (pos + 1 + 1)).take (data.getD (pos + 1) 0)).length =
      data.getD (pos + 1) 0) :
    rebuildGo enc data ce repl (fuel + 1) pos out warns =
      rebuildGo enc data ce repl fuel (pos + 1 + 1 + data.getD (pos + 1) 0)
        (out ++ [data.getD pos 0] ++ [data.getD (pos + 1) 0] ++
          (data.drop (pos + 1 + 1)).take (data.getD (pos + 1) 0)) (warns ++ [pos]) := by
  simp only [rebuildGo]
  rw [if_pos hlt, if_neg (by omega : ¬ data.length ≤ pos), if_neg hop, hstr]
  rw [if_neg (by decide : ¬ OPARG_STRING = OPARG_NULL),
    if_neg (by decide : ¬ OPARG_STRING = OPARG_X32),
    if_neg (by decide : ¬ OPARG_STRING = OPARG_I32),
    if_neg (by decide : ¬ OPARG_STRING = OPARG_I16),
    if_neg (by decide : ¬ OPARG_STRING = OPARG_I8),
    if_neg (by decide : ¬ OPARG_STRING = OPARG_I8I8),
    if_pos (rfl : OPARG_STRING = OPARG_STRING)]
  rw [if_neg (by omega : ¬ data.length ≤ pos + 1)]
  rw [hrep]
  simp only []
  rw [henc]
  simp only []
  rw [fixString_none_id _ _ h0 hfull, hfull]

/-- Counterexample to claim C7 as stated: the operand at address 4 is the
single byte 97 with no NUL terminator; when the replacement fails to encode,
the fallback still appends a NUL and truncates back to 1 byte, so the
output operand is the byte 0, not the original 97. -/
theorem C7_counterexample :
    (hcbRebuild (fun _ => none) [7, 0, 0, 0, 14, 1, 97] [(4, ['x'])]).map (fun r => r.1) ≠
      some [7, 0, 0, 0, 14, 1, 97] := by
  decide

/-- Witness for C7_encoding_failure: a pushstring with NUL-terminated 2-byte
operand [97, 0] at address 4; encoding of the replacement fails, the operand
is copied through unchanged and the address 4 is recorded as a warning. -/
theorem C7_witness :
    rebuildGo (fun _ => none) [9, 0, 0, 0, 14, 2, 97, 0, 0] 9 [(4, ['x'])] 1 4 [] [] =
      rebuildGo (fun _ => none) [9, 0, 0, 0, 14, 2, 97, 0, 0] 9 [(4, ['x'])] 0 8
        [14, 2, 97, 0] [4] :=
  C7_encoding_failure (fun _ => none) [9, 0, 0, 0, 14, 2, 97, 0, 0] 9 [(4, ['x'])] 0 4 [] []
    ['x'] (by decide) (by decide) (by decide) (by decide) (by decide) (by decide) rfl
    (by decide) (by decide)

/-- Claim C8: a code-section byte above the maximum known opcode 0x27 is
treated as a one-byte unknown instruction everywhere: get_opcode_info
returns nothing, Pass 1 and Pass 2 advance the cursor exactly one byte
without consuming argument bytes or erroring, and the rebuild traversal
copies the single byte through and advances one byte. -/
theorem C8_unknown_one_byte (data : List Nat) (pos ce : Nat)
    (hlt : pos < ce) (hpos : pos < data.length)
    (hop : HCB_LAST_OPCODE < data.getD pos 0) :
    get_opcode_info (data.getD pos 0) = none ∧
    (∀ fuel fs fn ls, pass1Go data ce (fuel + 1) pos fs fn ls =
        pass1Go data ce fuel (pos + 1) fs fn ls) ∧
    (∀ dec fs ls fuel cf sid acc strs,
        pass2Go dec data ce fs ls (fuel + 1) pos cf sid acc strs =
          pass2Go dec data ce fs ls fuel (pos + 1) (pass2Headers fs ls pos cf acc).2 sid
            (pass2Headers fs ls pos cf acc).1 strs) ∧
    (∀ enc repl fuel out warns,
        rebuildGo enc data ce repl (fuel + 1) pos out warns =
          rebuildGo enc data ce repl fuel (pos + 1) (out ++ [data.getD pos 0]) warns) := by
  refine ⟨?_, ?_, ?_, ?_⟩
  · unfold get_opcode_info
    rw [if_pos hop]
  · intro fuel fs fn ls
    simp only [pass1Go]
    rw [if_pos hlt, if_neg (by omega : ¬ data.length ≤ pos), if_pos hop]
  · intro dec fs ls fuel cf sid acc strs
    simp only [pass2Go]
    rw [if_pos hlt, if_neg (by omega : ¬ data.length ≤ pos), if_pos hop]
  · intro enc repl fuel out warns
    simp only [rebuildGo]
    rw [if_pos hlt, if_neg (by omega : ¬ data.length ≤ pos), if_pos hop]

/-- Witness for C8_unknown_one_byte at the byte 255 in a 5-byte file. -/
theorem C8_witness :
    get_opcode_info 255 = none ∧
      pass1Go [6, 0, 0, 0, 255] 6 1 4 [] 0 [] = pass1Go [6, 0, 0, 0, 255] 6 0 5 [] 0 [] ∧
      rebuildGo (fun _ => none) [6, 0, 0, 0, 255] 6 [] 1 4 [] [] =
        rebuildGo (fun _ => none) [6, 0, 0, 0, 255] 6 [] 0 5 [255] [] := by
  have h := C8_unknown_one_byte [6, 0, 0, 0, 255] 4 6 (by decide) (by decide) (by decide)
  exact ⟨h.1, h.2.1 0 [] 0 [], h.2.2.2 (fun _ => none) [] 0 [] []⟩

/-- Claim C9: when the remaining bytes are insufficient for a known
instruction's fixed-width argument, Pass 2 stops cleanly at that
instruction, keeping everything emitted so far, and hcb_decode still
produces output — the decoded lines followed by the blank line and the
entry-point trailer — for every file of at least 4 bytes. -/
theorem C9_truncation (dec : List Nat → List Char) (data : List Nat) :
    (∀ ce fs ls fuel pos cf sid acc strs w,
        pos < ce → pos < data.length → ¬ HCB_LAST_OPCODE < data.getD pos 0 →
        fixedWidth (opArg (data.getD pos 0)) = some w → data.length < pos + 1 + w →
        pass2Go dec data ce fs ls (fuel + 1) pos cf sid acc strs =
          ((pass2Headers fs ls pos cf acc).1, strs)) ∧
    (4 ≤ data.length →
      ∃ body strs, hcbDecode dec data =
        some (body ++ ["", "# ENTRY_POINT: 0x" ++ toHexU8 (unpackLE4 data 0)], strs)) := by
  constructor
  · intro ce fs ls fuel pos cf sid acc strs w hlt hpos hop hfw htr
    unfold fixedWidth at hfw
    by_cases hx : opArg (data.getD pos 0) = OPARG_X32
    · rw [if_pos hx] at hfw
      have hw : w = 4 := (Option.some.inj hfw).symm
      subst hw
      simp only [pass2Go]
      rw [if_pos hlt, if_neg (by omega : ¬ data.length ≤ pos), if_neg hop, hx]
      rw [if_neg (by decide : ¬ OPARG_X32 = OPARG_NULL),
        if_pos (rfl : OPARG_X32 = OPARG_X32)]
      rw [if_pos (by omega : data.length < pos + 1 + 4)]
    · rw [if_neg hx] at hfw
      by_cases hi32 : opArg (data.getD pos 0) = OPARG_I32
      · rw [if_pos hi32] at hfw
        have hw : w = 4 := (Option.some.inj hfw).symm
        subst hw
        simp only [pass2Go]
        rw [if_pos hlt, if_neg (by omega : ¬ data.length ≤ pos), if_neg hop, hi32]
        rw [if_neg (by decide : ¬ OPARG_I32 = OPARG_NULL),
          if_neg (by decide : ¬ OPARG_I32 = OPARG_X32),
          if_pos (rfl : OPARG_I32 = OPARG_I32)]
        rw [if_pos (by omega : data.length < pos + 1 + 4)]
      · rw [if_neg hi32] at hfw
        by_cases hi16 : opArg (data.getD pos 0) = OPARG_I16
        · rw [if_pos hi16] at hfw
          have hw : w = 2 := (Option.some.inj hfw).symm
          subst hw
          simp only [pass2Go]
          rw [if_pos hlt, if_neg (by omega : ¬ data.length ≤ pos), if_neg hop, hi16]
          rw [if_neg (by decide : ¬ OPARG_I16 = OPARG_NULL),
            if_neg (by decide : ¬ OPARG_I16 = OPARG_X32),
            if_neg (by decide : ¬ OPARG_I16 = OPARG_I32),
            if_pos (rfl : OPARG_I16 = OPARG_I16)]
          rw [if_pos (by omega : data.length < pos + 1 + 2)]
        · rw [if_neg hi16] at hfw
          by_cases hi8 : opArg (data.getD pos 0) = OPARG_I8
          · rw [if_pos hi8] at hfw
            have hw : w = 1 := (Option.some.inj hfw).symm
            subst hw
            simp only [pass2Go]
            rw [if_pos hlt, if_neg (by omega : ¬ data.length ≤ pos), if_neg hop, hi8]
            rw [if_neg (by decide : ¬ OPARG_I8 = OPARG_NULL),
              if_neg (by decide : ¬ OPARG_I8 = OPARG_X32),
              if_neg (by decide : ¬ OPARG_I8 = OPARG_I32),
              if_neg (by decide : ¬ OPARG_I8 = OPARG_I16),
              if_pos (rfl : OPARG_I8 = OPARG_I8)]
            rw [if_pos (by omega : data.length ≤ pos + 1)]
          · rw [if_neg hi8] at hfw
            by_cases hi88 : opArg (data.getD pos 0) = OPARG_I8I8
            · rw [if_pos hi88] at hfw
              have hw : w = 2 := (Option.some.inj hfw).symm
              subst hw
              simp only [pass2Go]
              rw [if_pos hlt, if_neg (by omega : ¬ data.length ≤ pos), if_neg hop, hi88]
              rw [if_neg (by decide : ¬ OPARG_I8I8 = OPARG_NULL),
                if_neg (by decide : ¬ OPARG_I8I8 = OPARG_X32),
                if_neg (by decide : ¬ OPARG_I8I8 = OPARG_I32),
                if_neg (by decide : ¬ OPARG_I8I8 = OPARG_I16),
                if_neg (by decide : ¬ OPARG_I8I8 = OPARG_I8),
                if_pos (rfl : OPARG_I8I8 = OPARG_I8I8)]
              rw [if_pos (by omega : data.length < pos + 1 + 2)]
            · rw [if_neg hi88] at hfw
              exact absurd hfw (by simp)
  · intro h4
    refine ⟨(pass2Go dec data (unpackLE4 data 0)
        (pass1Go data (unpackLE4 data 0) (unpackLE4 data 0) 4 [] 0 []).1
        (pass1Go data (unpackLE4 data 0) (unpackLE4 data 0) 4 [] 0 []).2
        (unpackLE4 data 0) 4 (-1) 0 [] []).1,
      (pass2Go dec data (unpackLE4 data 0)
        (pass1Go data (unpackLE4 data 0) (unpackLE4 data 0) 4 [] 0 []).1
        (pass1Go data (unpackLE4 data 0) (unpackLE4 data 0) 4 [] 0 []).2
        (unpackLE4 data 0) 4 (-1) 0 [] []).2, ?_⟩
    unfold hcbDecode
    rw [if_neg (by omega : ¬ data.length < 4)]

/-- Witness for C9_truncation: a 5-byte file whose single code byte is a
call opcode with no room for its 4-byte argument. -/
theorem C9_witness :
    pass2Go (fun bs => bs.map (fun b => Char.ofNat b)) [10, 0, 0, 0, 2] 10 [] [] 1 4 (-1) 0
        [] [] = ([], []) ∧
      ∃ body strs,
        hcbDecode (fun bs => bs.map (fun b => Char.ofNat b)) [10, 0, 0, 0, 2] =
          some (body ++ ["", "# ENTRY_POINT: 0x" ++ toHexU8 (unpackLE4 [10, 0, 0, 0, 2] 0)],
            strs) :=
  ⟨(C9_truncation (fun bs => bs.map (fun b => Char.ofNat b)) [10, 0, 0, 0, 2]).1
      10 [] [] 0 4 (-1) 0 [] [] 4 (by decide) (by decide) (by decide) (by decide) (by decide),
    (C9_truncation (fun bs => bs.map (fun b => Char.ofNat b)) [10, 0, 0, 0, 2]).2 (by decide)⟩

/-- Claim C10: in Pass 2 an unknown opcode byte (above 0x27) emits no line
at all — outside function/label header positions the accumulated listing is
left untouched while the cursor advances one byte — so the listing of a file
containing such a byte shows one line per known instruction and nothing for
the unknown byte, even though the reassembler copies it through unchanged. -/
theorem C10_unknown_no_line (data : List Nat) (ce : Nat) :
    (∀ dec fs ls fuel pos cf sid acc strs,
        pos < ce → pos < data.length → HCB_LAST_OPCODE < data.getD pos 0 →
        lookupFn fs pos = none → ls.contains pos = false →
        pass2Go dec data ce fs ls (fuel + 1) pos cf sid acc strs =
          pass2Go dec data ce fs ls fuel (pos + 1) cf sid acc strs) ∧
    hcbDecode (fun bs => bs.map (fun b => Char.ofNat b)) [7, 0, 0, 0, 0, 255, 4] =
      some (["  nop", "  ret", "", "# ENTRY_POINT: 0x00000007"], []) := by
  constructor
  · intro dec fs ls fuel pos cf sid acc strs hlt hpos hop hfn hcont
    have hhd : pass2Headers fs ls pos cf acc = (acc, cf) := by
      unfold pass2Headers
      rw [hfn, hcont]
      simp
    simp only [pass2Go]
    rw [if_pos hlt, if_neg (by omega : ¬ data.length ≤ pos), hhd, if_pos hop]
  · decide

/-- Witness for C10_unknown_no_line: the Pass 2 step on the byte 255 at
address 5 of the concrete file emits nothing and advances one byte. -/
theorem C10_witness :
    pass2Go (fun bs => bs.map (fun b => Char.ofNat b)) [7, 0, 0, 0, 0, 255, 4] 7 [] [] 1 5
        (-1) 0 ["  nop"] [] =
      pass2Go (fun bs => bs.map (fun b => Char.ofNat b)) [7, 0, 0, 0, 0, 255, 4] 7 [] [] 0 6
        (-1) 0 ["  nop"] [] :=
  (C10_unknown_no_line [7, 0, 0, 0, 0, 255, 4] 7).1 _ [] [] 0 5 (-1) 0 ["  nop"] []
    (by decide) (by decide) (by decide) rfl rfl

end FvpTools
